import Mathlib

/-!
Verification development for the v5_bridge serial motor-bridge program
(`src/main.rs`). The development shallowly embeds:

* the wire layout of `MotorPacket` (`#[repr(C, packed(1))]`: a `u64` magic
  followed by seven `f32` channels, 36 bytes, little-endian; the `f32`
  channels are modelled by their 32-bit little-endian bit patterns, which
  `bytemuck::from_bytes` / `bytes_of` copy verbatim);
* the frame synchronizer `get_motor_packet` (rolling carry-over buffer,
  backward magic scan, 100 ms budget), with the wall clock modelled as the
  list of `Instant`-difference readings observed at the loop head and the
  serial port modelled as the list of byte chunks each `read_to_end`
  delivers;
* the unit conversions `packet_to_wheel_motor_rpm`,
  `packet_to_intake_motor_rpm`, `rpm_to_wheel_rad_per_sec`,
  `rpm_to_intake_rad_per_sec`, with `f64`/`f32` arithmetic idealised as
  exact rational arithmetic (the `f64` constant `PI` is the exact rational
  value of the IEEE-754 double nearest pi) and the `as i32` cast modelled
  as truncation toward zero with saturation;
* the telemetry packet builders from `main` (position packet with sentinel
  `0f32`, velocity packet with sentinel `-f32::INFINITY`), with channel
  values modelled as either a finite rational or negative infinity.
-/

/-- `MOTOR_PACKET_MAGIC` from the source. -/
def MOTOR_PACKET_MAGIC : Nat := 0xFEFAABCD1234BEEF

/-- `ENCODER_POSITION_MAGIC` from the source. -/
def ENCODER_POSITION_MAGIC : Nat := 0xF23BDEAD6789ACBD

/-- `ENCODER_VELOCITY_MAGIC` from the source. -/
def ENCODER_VELOCITY_MAGIC : Nat := 0xF81CB00B1350C0CA

/-- Little-endian byte list (each entry a byte value) to natural number,
as Rust `u64::from_le_bytes` / reading a packed little-endian field. -/
def fromLEBytes : List Nat → Nat
  | [] => 0
  | b :: rest => b + 256 * fromLEBytes rest

/-- Natural number to `w` little-endian bytes, as Rust `to_le_bytes`. -/
def toLEBytes : Nat → Nat → List Nat
  | 0, _ => []
  | w + 1, n => n % 256 :: toLEBytes w (n / 256)

/-- `MOTOR_PACKET_MAGIC.to_le_bytes()`, the 8-byte pattern the scan
compares against. -/
def magicBytes : List Nat := toLEBytes 8 MOTOR_PACKET_MAGIC

/-- `struct MotorPacket` (`#[repr(C, packed(1))]`): `magic: u64` then seven
`f32` channels in declaration order.  Each `f32` is modelled by its 32-bit
pattern (a `Nat` below `2^32`), which is what `bytemuck` copies. -/
structure MotorPacket where
  magic : Nat
  front_left : Nat
  back_left : Nat
  back_right : Nat
  front_right : Nat
  intake1 : Nat
  intake2 : Nat
  intake3 : Nat
deriving DecidableEq

/-- `size_of::<MotorPacket>()`: 8 + 7 * 4 = 36 bytes, no padding under
`packed(1)`. -/
def PACKET_SIZE : Nat := 36

/-- `bytemuck::from_bytes::<MotorPacket>` on a 36-byte slice on the
little-endian target: field-by-field little-endian decode in declaration
order at the packed offsets 0, 8, 12, 16, 20, 24, 28, 32. -/
def from_bytes (bs : List Nat) : MotorPacket :=
  { magic := fromLEBytes (bs.take 8)
  , front_left := fromLEBytes ((bs.drop 8).take 4)
  , back_left := fromLEBytes ((bs.drop 12).take 4)
  , back_right := fromLEBytes ((bs.drop 16).take 4)
  , front_right := fromLEBytes ((bs.drop 20).take 4)
  , intake1 := fromLEBytes ((bs.drop 24).take 4)
  , intake2 := fromLEBytes ((bs.drop 28).take 4)
  , intake3 := fromLEBytes ((bs.drop 32).take 4) }

/-- `bytemuck::bytes_of`: the packed little-endian serialization of a
`MotorPacket`, fields in declaration order, no padding. -/
def bytes_of (p : MotorPacket) : List Nat :=
  toLEBytes 8 p.magic ++ toLEBytes 4 p.front_left ++ toLEBytes 4 p.back_left
    ++ toLEBytes 4 p.back_right ++ toLEBytes 4 p.front_right
    ++ toLEBytes 4 p.intake1 ++ toLEBytes 4 p.intake2 ++ toLEBytes 4 p.intake3

/-- `persistent_buf[idx..(idx + 8)] == MOTOR_PACKET_MAGIC.to_le_bytes()`:
the magic test at candidate offset `idx` (only used at offsets where the
8-byte window is in bounds). -/
def magicAt (buf : List Nat) (idx : Nat) : Bool :=
  (buf.drop idx).take 8 == magicBytes

/-- Result of the backward scan loop (`while idx >= 0 { ... idx -= 1 }`).
`idx` is a `usize`, so the loop guard is always true; when offset 0 fails
to match, `idx -= 1` underflows: debug builds panic on the subtraction,
release builds wrap `idx` to `usize::MAX` and the subsequent slice
`persistent_buf[idx..idx + 8]` panics on its bounds check.  Either way the
scan panics, which `ScanOutcome.panicked` records. -/
inductive ScanOutcome where
  | found : Nat → ScanOutcome
  | panicked : ScanOutcome
deriving DecidableEq

/-- The backward scan from start offset `idx` down to 0: return the first
(hence rightmost) offset whose 8-byte window equals the magic, or panic
after offset 0 fails. -/
def backScan (buf : List Nat) : Nat → ScanOutcome
  | 0 => if magicAt buf 0 then .found 0 else .panicked
  | i + 1 => if magicAt buf (i + 1) then .found (i + 1) else backScan buf i

/-- Outcome of one loop iteration of `get_motor_packet` after the newly
read bytes have been appended to the carry-over buffer:
`got p b` models `return Ok(packet)` with post-drain buffer `b`;
`wait b` models falling through to `sleep` with buffer `b` retained;
`panicked b` models the backward-scan panic (buffer contents at the point
of the panic recorded for reference). -/
inductive StepResult where
  | got : MotorPacket → List Nat → StepResult
  | wait : List Nat → StepResult
  | panicked : List Nat → StepResult
deriving DecidableEq

/-- One iteration body of `get_motor_packet`'s loop: extend the carry-over
buffer with the bytes `read_to_end` returned, and iff the buffer length
STRICTLY exceeds `size_of::<MotorPacket>()` run the backward scan from
offset `buffer_length - packet_size`; on a match at `idx`, decode
`buf[idx..idx+36]` and `drain(..idx+36)`. -/
def syncStep (persistent incoming : List Nat) : StepResult :=
  let buf := persistent ++ incoming
  if PACKET_SIZE < buf.length then
    match backScan buf (buf.length - PACKET_SIZE) with
    | .found idx =>
        .got (from_bytes ((buf.drop idx).take PACKET_SIZE)) (buf.drop (idx + PACKET_SIZE))
    | .panicked => .panicked buf
  else .wait buf

/-- `TIMEOUT = Duration::from_millis(100)`, in milliseconds. -/
def TIMEOUT : Nat := 100

/-- How a call to `get_motor_packet` ends: `Ok(packet)`, the
`ErrorKind::TimedOut` error, or the backward-scan panic. -/
inductive GetResult where
  | ok : MotorPacket → GetResult
  | timedOut : GetResult
  | panicked : GetResult
deriving DecidableEq

/-- A whole call to `get_motor_packet`, driven by a schedule: the k-th
entry `(t, chunk)` gives the elapsed-time reading (ms) the loop head
observes and the bytes `read_to_end` then delivers.  Returns the call's
result paired with the carry-over buffer the call leaves behind
(`persistent_buf.clear()` runs before the timeout error is returned, so a
timeout always leaves `[]`).  `none` means the modelled schedule was
exhausted with the call still in progress. -/
def getMotorPacketRun : List (Nat × List Nat) → List Nat → Option (GetResult × List Nat)
  | [], _ => none
  | (t, chunk) :: rest, buf =>
    if t < TIMEOUT then
      match syncStep buf chunk with
      | .got p b => some (.ok p, b)
      | .wait b => getMotorPacketRun rest b
      | .panicked b => some (.panicked, b)
    else some (.timedOut, [])

/-- The `f64` constant `std::f64::consts::PI` as an exact rational: the
IEEE-754 binary64 value nearest pi.  The `f64`/`f32` arithmetic of the
conversion layer is idealised as exact rational arithmetic over this
constant. -/
def PI : ℚ := 884279719003555 / 281474976710656

/-- `RAD_PER_REV = 2.0 * PI`. -/
def RAD_PER_REV : ℚ := 2 * PI

/-- `SEC_PER_MIN = 60.0`. -/
def SEC_PER_MIN : ℚ := 60

/-- `WHEEL_GEAR_RATIO = 22f64 / 26f64`. -/
def WHEEL_GEAR_RATIO : ℚ := 22 / 26

/-- The Rust `as i32` cast on a (finite) float: truncation toward zero,
saturating at the `i32` bounds. -/
def f64_as_i32 (q : ℚ) : Int :=
  max (-2147483648) (min 2147483647 (if 0 ≤ q then ⌊q⌋ else ⌈q⌉))

/-- `packet_to_wheel_motor_rpm`: commanded wheel rad/s from the wire to a
motor RPM command; note it DIVIDES by the gear ratio. -/
def packet_to_wheel_motor_rpm (packet_value : ℚ) : Int :=
  let rev_per_sec := packet_value / RAD_PER_REV
  let rev_per_min := rev_per_sec * SEC_PER_MIN
  f64_as_i32 (rev_per_min / WHEEL_GEAR_RATIO)

/-- `packet_to_intake_motor_rpm`: gear-ratio-free RPM command. -/
def packet_to_intake_motor_rpm (packet_value : ℚ) : Int :=
  let rev_per_sec := packet_value / RAD_PER_REV
  let rev_per_min := rev_per_sec * SEC_PER_MIN
  f64_as_i32 rev_per_min

/-- `rpm_to_intake_rad_per_sec`: telemetry direction, gear-ratio-free. -/
def rpm_to_intake_rad_per_sec (rpm : ℚ) : ℚ :=
  rpm * RAD_PER_REV / SEC_PER_MIN

/-- `rpm_to_wheel_rad_per_sec`: telemetry direction; note it ALSO divides
by the gear ratio. -/
def rpm_to_wheel_rad_per_sec (rpm : ℚ) : ℚ :=
  rpm * RAD_PER_REV / SEC_PER_MIN / WHEEL_GEAR_RATIO

/-- An `f32` channel value of a telemetry packet, at value level: either
negative infinity (the velocity-packet sentinel) or a finite value. -/
inductive F32V where
  | negInf : F32V
  | fin : ℚ → F32V
deriving DecidableEq

/-- `Option::map_or(default, f)`. -/
def map_or (d : F32V) (f : ℚ → F32V) : Option ℚ → F32V
  | none => d
  | some x => f x

/-- The telemetry instances of `MotorPacket` built in `main`, with the
seven `f32` channels at value level. -/
structure TelemetryPacket where
  magic : Nat
  front_left : F32V
  back_left : F32V
  back_right : F32V
  front_right : F32V
  intake1 : F32V
  intake2 : F32V
  intake3 : F32V
deriving DecidableEq

/-- The `position_packet` literal in `main`: each channel is
`motor.position().map_or(0f32, |x| ...)` — wheels convert radians with a
gear-ratio division, intakes use the radians unchanged, and a failed read
yields the sentinel `0f32`.  A reading of `none` models a failed
`position()` call; `some x` a successful reading of `x` radians. -/
def build_position_packet (fl fr bl br i1 i2 i3 : Option ℚ) : TelemetryPacket :=
  { magic := ENCODER_POSITION_MAGIC
  , front_left := map_or (.fin 0) (fun x => .fin (x / WHEEL_GEAR_RATIO)) fl
  , back_left := map_or (.fin 0) (fun x => .fin (x / WHEEL_GEAR_RATIO)) bl
  , back_right := map_or (.fin 0) (fun x => .fin (x / WHEEL_GEAR_RATIO)) br
  , front_right := map_or (.fin 0) (fun x => .fin (x / WHEEL_GEAR_RATIO)) fr
  , intake1 := map_or (.fin 0) (fun x => .fin x) i1
  , intake2 := map_or (.fin 0) (fun x => .fin x) i2
  , intake3 := map_or (.fin 0) (fun x => .fin x) i3 }

/-- The `velocity_packet` literal in `main`: each channel is
`motor.velocity().map_or(-f32::INFINITY, rpm_to_..._rad_per_sec)`; a
failed read yields the sentinel negative infinity.  A reading of `none`
models a failed `velocity()` call; `some r` a successful reading of `r`
RPM. -/
def build_velocity_packet (fl fr bl br i1 i2 i3 : Option ℚ) : TelemetryPacket :=
  { magic := ENCODER_VELOCITY_MAGIC
  , front_left := map_or .negInf (fun r => .fin (rpm_to_wheel_rad_per_sec r)) fl
  , back_left := map_or .negInf (fun r => .fin (rpm_to_wheel_rad_per_sec r)) bl
  , back_right := map_or .negInf (fun r => .fin (rpm_to_wheel_rad_per_sec r)) br
  , front_right := map_or .negInf (fun r => .fin (rpm_to_wheel_rad_per_sec r)) fr
  , intake1 := map_or .negInf (fun r => .fin (rpm_to_intake_rad_per_sec r)) i1
  , intake2 := map_or .negInf (fun r => .fin (rpm_to_intake_rad_per_sec r)) i2
  , intake3 := map_or .negInf (fun r => .fin (rpm_to_intake_rad_per_sec r)) i3 }

/-- The seven channels of a telemetry packet in declaration order. -/
def channel (p : TelemetryPacket) : Fin 7 → F32V
  | ⟨0, _⟩ => p.front_left
  | ⟨1, _⟩ => p.back_left
  | ⟨2, _⟩ => p.back_right
  | ⟨3, _⟩ => p.front_right
  | ⟨4, _⟩ => p.intake1
  | ⟨5, _⟩ => p.intake2
  | ⟨6, _⟩ => p.intake3

/-- The sensor reading feeding each channel, in the same order the
builders consume them. -/
def readingsOf (fl fr bl br i1 i2 i3 : Option ℚ) : Fin 7 → Option ℚ
  | ⟨0, _⟩ => fl
  | ⟨1, _⟩ => bl
  | ⟨2, _⟩ => br
  | ⟨3, _⟩ => fr
  | ⟨4, _⟩ => i1
  | ⟨5, _⟩ => i2
  | ⟨6, _⟩ => i3

/-- The position-packet conversion applied to a successful reading of
channel `i` (wheels 0-3 divide by the gear ratio, intakes 4-6 do not). -/
def posConvert : Fin 7 → ℚ → ℚ
  | ⟨0, _⟩, x => x / WHEEL_GEAR_RATIO
  | ⟨1, _⟩, x => x / WHEEL_GEAR_RATIO
  | ⟨2, _⟩, x => x / WHEEL_GEAR_RATIO
  | ⟨3, _⟩, x => x / WHEEL_GEAR_RATIO
  | ⟨4, _⟩, x => x
  | ⟨5, _⟩, x => x
  | ⟨6, _⟩, x => x

/-- The velocity-packet conversion applied to a successful reading of
channel `i`. -/
def velConvert : Fin 7 → ℚ → ℚ
  | ⟨0, _⟩, r => rpm_to_wheel_rad_per_sec r
  | ⟨1, _⟩, r => rpm_to_wheel_rad_per_sec r
  | ⟨2, _⟩, r => rpm_to_wheel_rad_per_sec r
  | ⟨3, _⟩, r => rpm_to_wheel_rad_per_sec r
  | ⟨4, _⟩, r => rpm_to_intake_rad_per_sec r
  | ⟨5, _⟩, r => rpm_to_intake_rad_per_sec r
  | ⟨6, _⟩, r => rpm_to_intake_rad_per_sec r

/-- Any offset the backward scan reports lies within the scanned range and
carries the magic. -/
theorem backScan_found_le (buf : List Nat) :
    ∀ s k, backScan buf s = ScanOutcome.found k → k ≤ s ∧ magicAt buf k = true := by
  intro s
  induction s with
  | zero =>
    intro k h
    by_cases hm : magicAt buf 0 = true
    · simp [backScan, hm] at h
      simp [← h, hm]
    · simp [backScan, hm] at h
  | succ i ih =>
    intro k h
    by_cases hm : magicAt buf (i + 1) = true
    · simp [backScan, hm] at h
      simp [← h, hm]
    · simp [backScan, hm] at h
      obtain ⟨hk, hmk⟩ := ih k h
      exact ⟨Nat.le_succ_of_le hk, hmk⟩

/-- The offset the backward scan reports is the rightmost match in the
scanned range: every strictly higher candidate offset fails the magic
test. -/
theorem backScan_found_max (buf : List Nat) :
    ∀ s k, backScan buf s = ScanOutcome.found k →
      ∀ m, k < m → m ≤ s → magicAt buf m = false := by
  intro s
  induction s with
  | zero =>
    intro k h m hkm hm0
    have := (backScan_found_le buf 0 k h).1
    omega
  | succ i ih =>
    intro k h m hkm hms
    by_cases hm : magicAt buf (i + 1) = true
    · simp [backScan, hm] at h
      omega
    · simp [backScan, hm] at h
      rcases Nat.lt_or_ge m (i + 1) with hlt | hge
      · exact ih k h m hkm (by omega)
      · have : m = i + 1 := by omega
        simpa [this] using hm

/-- If some offset in the scanned range matches, the backward scan
terminates with a match (at an offset at least as high). -/
theorem backScan_finds (buf : List Nat) :
    ∀ s j, j ≤ s → magicAt buf j = true →
      ∃ k, backScan buf s = ScanOutcome.found k ∧ j ≤ k := by
  intro s
  induction s with
  | zero =>
    intro j hj hm
    have hj0 : j = 0 := by omega
    subst hj0
    exact ⟨0, by simp [backScan, hm], le_refl 0⟩
  | succ i ih =>
    intro j hj hm
    by_cases htop : magicAt buf (i + 1) = true
    · exact ⟨i + 1, by simp [backScan, htop], hj⟩
    · have hji : j ≤ i := by
        rcases Nat.lt_or_ge j (i + 1) with hlt | hge
        · omega
        · have : j = i + 1 := by omega
          rw [this] at hm
          simp [hm] at htop
      obtain ⟨k, hk, hjk⟩ := ih j hji hm
      exact ⟨k, by simp [backScan, htop, hk], hjk⟩

/-- A start offset that itself matches is returned immediately. -/
theorem backScan_self (buf : List Nat) (s : Nat) (h : magicAt buf s = true) :
    backScan buf s = ScanOutcome.found s := by
  cases s <;> simp [backScan, h]

/-- Claim C1 (code bug): with a carry-over buffer longer than one packet
(here 40 bytes) in which no candidate offset holds the magic, the backward
scan visits every offset down to 0 and then panics — `idx` is a `usize`,
so `while idx >= 0` never exits and `idx -= 1` at offset 0 underflows
(debug: subtraction-overflow panic; release: wrapped index, slice-bounds
panic).  The synchronization attempt therefore does not continue to the
timeout, contrary to the claim. -/
theorem c1_backward_scan_panics :
    backScan (List.replicate 40 0) (40 - PACKET_SIZE) = ScanOutcome.panicked ∧
    getMotorPacketRun [(0, List.replicate 40 0)] [] =
      some (GetResult.panicked, List.replicate 40 0) := by decide

/-- Claim C6 (code bug): a carry-over buffer holding EXACTLY
`size_of::<MotorPacket>()` bytes that begin with the motor-packet magic is
a complete valid packet, but the guard `persistent_buf.len() >
size_of::<MotorPacket>()` is strict, so the call does not scan (it waits),
and if no further bytes arrive the call times out and discards the valid
packet. -/
theorem c6_exact_packet_not_decoded :
    (magicBytes ++ List.replicate 28 0).length = PACKET_SIZE ∧
    magicAt (magicBytes ++ List.replicate 28 0) 0 = true ∧
    syncStep (magicBytes ++ List.replicate 28 0) [] =
      StepResult.wait (magicBytes ++ List.replicate 28 0) ∧
    getMotorPacketRun [(0, []), (100, [])] (magicBytes ++ List.replicate 28 0) =
      some (GetResult.timedOut, []) := by decide

/-- Claim C4: if the carry-over buffer holds valid magic matches at two or
more distinct offsets (`i < j`, both with room for a full packet), the
call extracts the packet at the RIGHTMOST matching offset `k` (with
`j ≤ k`, so the earlier match at `i` is skipped), removes from the front
every byte up to and including the end of that packet (the earlier
packet's bytes `i..i+36` are among them, silently discarded), and no
offset above `k` matches. -/
theorem c4_rightmost_wins (B : List Nat) (i j : Nat)
    (hlen : PACKET_SIZE < B.length) (hij : i < j)
    (hj : j ≤ B.length - PACKET_SIZE)
    (hi : magicAt B i = true) (hmj : magicAt B j = true) :
    ∃ k, j ≤ k ∧ magicAt B k = true ∧
      syncStep B [] =
        StepResult.got (from_bytes ((B.drop k).take PACKET_SIZE))
          (B.drop (k + PACKET_SIZE)) ∧
      i + PACKET_SIZE ≤ k + PACKET_SIZE ∧
      (∀ m, k < m → m ≤ B.length - PACKET_SIZE → magicAt B m = false) := by
  obtain ⟨k, hscan, hjk⟩ := backScan_finds B (B.length - PACKET_SIZE) j hj hmj
  obtain ⟨hks, hmk⟩ := backScan_found_le B _ _ hscan
  refine ⟨k, hjk, hmk, ?_, by omega, backScan_found_max B _ _ hscan⟩
  simp [syncStep, List.append_nil, hlen, hscan]

/-- Witness for C4 at a concrete two-packet backlog. -/
theorem c4_rightmost_wins_witness :
    ∃ k, 36 ≤ k ∧
      magicAt ((magicBytes ++ List.replicate 28 0) ++ (magicBytes ++ List.replicate 28 1)) k = true ∧
      syncStep ((magicBytes ++ List.replicate 28 0) ++ (magicBytes ++ List.replicate 28 1)) [] =
        StepResult.got
          (from_bytes ((((magicBytes ++ List.replicate 28 0) ++ (magicBytes ++ List.replicate 28 1)).drop k).take PACKET_SIZE))
          (((magicBytes ++ List.replicate 28 0) ++ (magicBytes ++ List.replicate 28 1)).drop (k + PACKET_SIZE)) ∧
      0 + PACKET_SIZE ≤ k + PACKET_SIZE ∧
      (∀ m, k < m →
        m ≤ ((magicBytes ++ List.replicate 28 0) ++ (magicBytes ++ List.replicate 28 1)).length - PACKET_SIZE →
        magicAt ((magicBytes ++ List.replicate 28 0) ++ (magicBytes ++ List.replicate 28 1)) m = false) :=
  c4_rightmost_wins _ 0 36 (by decide) (by decide) (by decide) (by decide) (by decide)

/-- Claim C7: whenever a call extracts a packet, the match is at some
offset `k` of the post-append buffer, the packet is decoded from
`buf[k..k+36]`, and the surviving carry-over buffer is exactly the suffix
after the packet: the removed prefix is precisely the first `k + 36`
bytes.  Since each later call scans only the surviving buffer (plus
newly appended bytes), no removed byte is ever re-examined or
re-matched. -/
theorem c7_buffer_non_reuse (persistent incoming : List Nat)
    (p : MotorPacket) (b : List Nat)
    (h : syncStep persistent incoming = StepResult.got p b) :
    ∃ k, magicAt (persistent ++ incoming) k = true ∧
      k + PACKET_SIZE ≤ (persistent ++ incoming).length ∧
      p = from_bytes (((persistent ++ incoming).drop k).take PACKET_SIZE) ∧
      b = (persistent ++ incoming).drop (k + PACKET_SIZE) ∧
      ((persistent ++ incoming).take (k + PACKET_SIZE)) ++ b = persistent ++ incoming := by
  unfold syncStep at h
  by_cases hg : PACKET_SIZE < (persistent ++ incoming).length
  · simp only [hg, if_true] at h
    cases hscan : backScan (persistent ++ incoming) ((persistent ++ incoming).length - PACKET_SIZE) with
    | found idx =>
      rw [hscan] at h
      obtain ⟨hks, hmk⟩ := backScan_found_le _ _ _ hscan
      simp only [StepResult.got.injEq] at h
      obtain ⟨hp, hb⟩ := h
      refine ⟨idx, hmk, by omega, hp.symm, hb.symm, ?_⟩
      rw [← hb]
      exact List.take_append_drop _ _
    | panicked =>
      rw [hscan] at h
      simp at h
  · simp only [hg, if_false] at h
    simp at h

/-- Witness for C7: one noise byte followed by a full packet. -/
theorem c7_buffer_non_reuse_witness :
    ∃ k, magicAt ([5] ++ (magicBytes ++ List.replicate 28 4)) k = true ∧
      k + PACKET_SIZE ≤ ([5] ++ (magicBytes ++ List.replicate 28 4)).length ∧
      from_bytes (magicBytes ++ List.replicate 28 4) =
        from_bytes ((([5] ++ (magicBytes ++ List.replicate 28 4)).drop k).take PACKET_SIZE) ∧
      ([] : List Nat) = ([5] ++ (magicBytes ++ List.replicate 28 4)).drop (k + PACKET_SIZE) ∧
      (([5] ++ (magicBytes ++ List.replicate 28 4)).take (k + PACKET_SIZE)) ++ ([] : List Nat) =
        [5] ++ (magicBytes ++ List.replicate 28 4) :=
  c7_buffer_non_reuse [5] (magicBytes ++ List.replicate 28 4)
    (from_bytes (magicBytes ++ List.replicate 28 4)) [] (by decide)

/-- Claim C3 counterexample: the whole stream
noise1 ++ packet1 ++ noise2 ++ packet2 arrives before the first call.
That call returns packet2 (the rightmost match) with the carry-over buffer
emptied, so packet1 is silently discarded and can never be returned:
successive calls do NOT extract both packets in order. -/
theorem c3_counterexample :
    getMotorPacketRun
        [(0, [9, 9, 9] ++ (magicBytes ++ List.replicate 28 1) ++ [7, 7]
              ++ (magicBytes ++ List.replicate 28 2))] [] =
      some (GetResult.ok (from_bytes (magicBytes ++ List.replicate 28 2)), []) ∧
    from_bytes (magicBytes ++ List.replicate 28 2) ≠
      from_bytes (magicBytes ++ List.replicate 28 1) := by decide

/-- A buffer that is nonempty noise followed by one full packet yields
exactly that packet, leaving an empty carry-over buffer. -/
theorem syncStep_noise_packet (n p : List Nat) (hp : p.length = PACKET_SIZE)
    (hm : p.take 8 = magicBytes) (hn : n ≠ []) :
    syncStep [] (n ++ p) = StepResult.got (from_bytes p) [] := by
  have hpos : 0 < n.length := List.length_pos.mpr hn
  have hlen : (n ++ p).length = n.length + PACKET_SIZE := by simp [hp]
  have hguard : PACKET_SIZE < (n ++ p).length := by omega
  have hidx : (n ++ p).length - PACKET_SIZE = n.length := by omega
  have hdrop : (n ++ p).drop n.length = p := by simp
  have hmagic : magicAt (n ++ p) n.length = true := by
    simp [magicAt, hdrop, hm]
  have hscan := backScan_self (n ++ p) n.length hmagic
  have htake : p.take PACKET_SIZE = p := by
    rw [← hp]; exact List.take_length p
  have hdrop2 : (n ++ p).drop (n.length + PACKET_SIZE) = [] := by
    rw [← List.drop_drop, hdrop, ← hp, List.drop_length]
  simp only [syncStep, List.nil_append, List.length_append, hp]
  rw [if_pos (by omega : PACKET_SIZE < n.length + PACKET_SIZE), Nat.add_sub_cancel, hscan]
  simp only [hdrop, htake, hdrop2]

/-- Claim C3 amended: when the stream's segments are delivered across
separate calls — the first call's buffer ending exactly at packet1's
boundary, the second call's at packet2's — the two calls extract packet1
then packet2, in order, each leaving an empty carry-over buffer (so the
second call starts from exactly noise2 ++ packet2), unaffected by the
noise prefixes. -/
theorem c3_segmented_delivery (n1 p1 n2 p2 : List Nat)
    (h1 : p1.length = PACKET_SIZE) (h2 : p2.length = PACKET_SIZE)
    (hm1 : p1.take 8 = magicBytes) (hm2 : p2.take 8 = magicBytes)
    (hn1 : n1 ≠ []) (hn2 : n2 ≠ []) :
    syncStep [] (n1 ++ p1) = StepResult.got (from_bytes p1) [] ∧
    syncStep [] (n2 ++ p2) = StepResult.got (from_bytes p2) [] :=
  ⟨syncStep_noise_packet n1 p1 h1 hm1 hn1,
   syncStep_noise_packet n2 p2 h2 hm2 hn2⟩

/-- Witness for the amended C3 at concrete noise and packets. -/
theorem c3_segmented_delivery_witness :
    syncStep [] ([8] ++ (magicBytes ++ List.replicate 28 6)) =
      StepResult.got (from_bytes (magicBytes ++ List.replicate 28 6)) [] ∧
    syncStep [] ([4, 4] ++ (magicBytes ++ List.replicate 28 11)) =
      StepResult.got (from_bytes (magicBytes ++ List.replicate 28 11)) [] :=
  c3_segmented_delivery [8] (magicBytes ++ List.replicate 28 6)
    [4, 4] (magicBytes ++ List.replicate 28 11)
    (by decide) (by decide) (by decide) (by decide) (by decide) (by decide)

/-- Claim C5 counterexample: a stream that delivers 37 bytes of noise —
hence never a full valid packet — does not make `get_motor_packet` return
the timeout failure at all: the backward scan panics on that very
iteration (see the `usize` underflow), well before the 100 ms budget. -/
theorem c5_counterexample :
    getMotorPacketRun [(0, List.replicate 37 9)] [] =
      some (GetResult.panicked, List.replicate 37 9) := by decide

/-- Claim C5 amended: provided the carry-over buffer plus all bytes
delivered within the budget total at most one packet length (36 bytes) —
so the panicking scan is never entered — the timeout failure is returned
only when a loop-head clock reading is at or past the 100 ms budget,
never before (with every reading below the budget the call is still in
progress, `none`), and whenever the timeout failure is returned the
carry-over buffer has been cleared. -/
theorem c5_timeout_behavior :
    ∀ (schedule : List (Nat × List Nat)) (buf : List Nat),
      buf.length + (schedule.map fun e => e.2.length).sum ≤ PACKET_SIZE →
      (∀ b, getMotorPacketRun schedule buf = some (GetResult.timedOut, b) → b = []) ∧
      ((∀ e ∈ schedule, e.1 < TIMEOUT) → getMotorPacketRun schedule buf = none) := by
  intro schedule
  induction schedule with
  | nil =>
    intro buf _
    constructor
    · intro b h
      simp [getMotorPacketRun] at h
    · intro _
      rfl
  | cons e rest ih =>
    obtain ⟨t, chunk⟩ := e
    intro buf hsz
    simp only [List.map_cons, List.sum_cons] at hsz
    have hwait : syncStep buf chunk = StepResult.wait (buf ++ chunk) := by
      have hle : ¬ PACKET_SIZE < buf.length + chunk.length := by omega
      simp [syncStep, hle]
    have hsz2 : (buf ++ chunk).length + (rest.map fun e => e.2.length).sum ≤ PACKET_SIZE := by
      simp only [List.length_append]
      omega
    by_cases ht : t < TIMEOUT
    · constructor
      · intro b h
        simp only [getMotorPacketRun, ht, if_true, hwait] at h
        exact (ih (buf ++ chunk) hsz2).1 b h
      · intro hall
        simp only [getMotorPacketRun, ht, if_true, hwait]
        exact (ih (buf ++ chunk) hsz2).2 fun e he => hall e (List.mem_cons_of_mem _ he)
    · constructor
      · intro b h
        simp only [getMotorPacketRun, ht, if_false, Option.some.injEq, Prod.mk.injEq] at h
        exact h.2.symm
      · intro hall
        exact absurd (hall (t, chunk) (List.mem_cons_self _ _)) ht

/-- Witness for the amended C5 at a concrete sparse schedule. -/
theorem c5_timeout_behavior_witness :
    (∀ b, getMotorPacketRun [(0, [9]), (50, [9, 9])] [1] = some (GetResult.timedOut, b) → b = []) ∧
    ((∀ e ∈ [((0 : Nat), [(9 : Nat)]), (50, [9, 9])], e.1 < TIMEOUT) →
      getMotorPacketRun [(0, [9]), (50, [9, 9])] [1] = none) :=
  c5_timeout_behavior [(0, [9]), (50, [9, 9])] [1] (by decide)

/-- Claim C8 counterexample: a stream closed mid-packet (the magic and 10
payload bytes arrive, then nothing ever again) yields exactly the same
outcome as a completely silent stream: the `TimedOut` failure with a
cleared buffer.  No distinct "incomplete" failure exists — the only error
the function ever constructs is `ErrorKind::TimedOut`. -/
theorem c8_counterexample :
    getMotorPacketRun [(0, magicBytes ++ List.replicate 10 3), (100, [])] [] =
      some (GetResult.timedOut, []) ∧
    getMotorPacketRun [(0, []), (100, [])] [] = some (GetResult.timedOut, []) ∧
    getMotorPacketRun [(0, magicBytes ++ List.replicate 10 3), (100, [])] [] =
      getMotorPacketRun [(0, []), (100, [])] [] := by decide

/-- Claim C8 amended: a stream closed mid-packet (any partial delivery of
at most one packet length, then silence) is surfaced as the SAME timeout
failure a silent stream produces — the attempt is discarded at the budget
with the buffer cleared, indistinguishable from a timeout. -/
theorem c8_incomplete_is_timeout (chunk : List Nat) (t0 t1 : Nat)
    (hlen : chunk.length ≤ PACKET_SIZE) (h0 : t0 < TIMEOUT) (h1 : TIMEOUT ≤ t1) :
    getMotorPacketRun [(t0, chunk), (t1, [])] [] = some (GetResult.timedOut, []) ∧
    getMotorPacketRun [(t0, []), (t1, [])] [] = some (GetResult.timedOut, []) := by
  have hstep : syncStep [] chunk = StepResult.wait chunk := by
    have hle : ¬ PACKET_SIZE < chunk.length := by omega
    simp [syncStep, hle]
  have hstep0 : syncStep ([] : List Nat) [] = StepResult.wait [] := by
    simp [syncStep, PACKET_SIZE]
  have hnot : ¬ t1 < TIMEOUT := by omega
  constructor <;>
    simp [getMotorPacketRun, h0, hnot, hstep, hstep0]

/-- Witness for the amended C8: magic plus five payload bytes, then
silence past the budget. -/
theorem c8_incomplete_is_timeout_witness :
    getMotorPacketRun [(0, magicBytes ++ List.replicate 5 2), (150, [])] [] =
      some (GetResult.timedOut, []) ∧
    getMotorPacketRun [(0, []), (150, [])] [] = some (GetResult.timedOut, []) :=
  c8_incomplete_is_timeout (magicBytes ++ List.replicate 5 2) 0 150
    (by decide) (by decide) (by decide)

/-- Re-serializing the little-endian decode of a byte list (all entries
byte-sized) at its own width reproduces the list. -/
theorem toLEBytes_fromLEBytes (bs : List Nat) (h : ∀ b ∈ bs, b < 256) :
    toLEBytes bs.length (fromLEBytes bs) = bs := by
  induction bs with
  | nil => rfl
  | cons b rest ih =>
    have hb : b < 256 := h b (List.mem_cons_self b rest)
    have hrest : ∀ x ∈ rest, x < 256 := fun x hx => h x (List.mem_cons_of_mem b hx)
    simp only [List.length_cons, toLEBytes, fromLEBytes, List.cons.injEq]
    constructor
    · omega
    · have hdiv : (b + 256 * fromLEBytes rest) / 256 = fromLEBytes rest := by omega
      rw [hdiv]
      exact ih hrest

/-- Claim C9: decoding any 36-byte wire sequence that begins with the
motor-packet magic and re-encoding the resulting `MotorPacket` reproduces
the identical byte sequence; the decoded magic is `MOTOR_PACKET_MAGIC`,
and the encoding is exactly 36 bytes (magic, then the seven channels
front_left, back_left, back_right, front_right, intake1, intake2, intake3,
each 4 bytes little-endian, tightly packed). -/
theorem c9_roundtrip (bs : List Nat) (hlen : bs.length = 36)
    (hbytes : ∀ b ∈ bs, b < 256) (hmagic : bs.take 8 = magicBytes) :
    bytes_of (from_bytes bs) = bs ∧
    (from_bytes bs).magic = MOTOR_PACKET_MAGIC ∧
    (bytes_of (from_bytes bs)).length = PACKET_SIZE := by
  have seg : ∀ d w : Nat, d + w ≤ 36 →
      toLEBytes w (fromLEBytes ((bs.drop d).take w)) = (bs.drop d).take w := by
    intro d w hdw
    have hl : ((bs.drop d).take w).length = w := by
      simp only [List.length_take, List.length_drop, hlen]
      omega
    have hmem : ∀ b ∈ (bs.drop d).take w, b < 256 := fun b hb =>
      hbytes b (List.mem_of_mem_drop (List.mem_of_mem_take hb))
    have h := toLEBytes_fromLEBytes ((bs.drop d).take w) hmem
    rwa [hl] at h
  have seg0 : toLEBytes 8 (fromLEBytes (bs.take 8)) = bs.take 8 := by
    have h := seg 0 8 (by omega)
    simpa using h
  have key : bytes_of (from_bytes bs) =
      bs.take 8 ++ ((bs.drop 8).take 4 ++ ((bs.drop 12).take 4 ++ ((bs.drop 16).take 4 ++
        ((bs.drop 20).take 4 ++ ((bs.drop 24).take 4 ++
          ((bs.drop 28).take 4 ++ (bs.drop 32).take 4)))))) := by
    simp only [bytes_of, from_bytes, seg0, seg 8 4 (by omega), seg 12 4 (by omega),
      seg 16 4 (by omega), seg 20 4 (by omega), seg 24 4 (by omega), seg 28 4 (by omega),
      seg 32 4 (by omega), List.append_assoc]
  have last32 : (bs.drop 32).take 4 = bs.drop 32 := by
    have h4 : (bs.drop 32).length = 4 := by simp [hlen]
    rw [← h4, List.take_length]
  have g28 := List.drop_take_append_drop bs 28 4
  have g24 := List.drop_take_append_drop bs 24 4
  have g20 := List.drop_take_append_drop bs 20 4
  have g16 := List.drop_take_append_drop bs 16 4
  have g12 := List.drop_take_append_drop bs 12 4
  have g8 := List.drop_take_append_drop bs 8 4
  norm_num at g28 g24 g20 g16 g12 g8
  have hbs : bs.take 8 ++ ((bs.drop 8).take 4 ++ ((bs.drop 12).take 4 ++ ((bs.drop 16).take 4 ++
      ((bs.drop 20).take 4 ++ ((bs.drop 24).take 4 ++
        ((bs.drop 28).take 4 ++ (bs.drop 32).take 4)))))) = bs := by
    rw [last32, g28, g24, g20, g16, g12, g8]
    exact List.take_append_drop 8 bs
  refine ⟨key.trans hbs, ?_, ?_⟩
  · show fromLEBytes (bs.take 8) = MOTOR_PACKET_MAGIC
    rw [hmagic]
    decide
  · rw [key.trans hbs]
    exact hlen

/-- Witness for C9 at a concrete magic-headed 36-byte sequence. -/
theorem c9_roundtrip_witness :
    bytes_of (from_bytes (magicBytes ++ List.replicate 28 7)) =
      magicBytes ++ List.replicate 28 7 ∧
    (from_bytes (magicBytes ++ List.replicate 28 7)).magic = MOTOR_PACKET_MAGIC ∧
    (bytes_of (from_bytes (magicBytes ++ List.replicate 28 7))).length = PACKET_SIZE :=
  c9_roundtrip (magicBytes ++ List.replicate 28 7) (by decide) (by decide) (by decide)

/-- Claim C2 (code bug): the wheel-channel conversions are NOT mutual
inverses.  Both directions divide by the 22/26 gear ratio, so the round
trip multiplies a commanded wheel rate by (13/11)^2 = 169/121 (about
1.397): for the wire value v = 2*PI*(11/13) rad/s the command maps to
exactly 60 RPM and the telemetry direction maps 60 RPM back to
2*PI*(13/11) rad/s, which differs from v by about 40 percent — far beyond
any floating-point tolerance (the model uses exact rational arithmetic,
whose deviation here dwarfs `f64`/`f32` rounding). -/
theorem c2_wheel_conversions_not_inverse :
    rpm_to_wheel_rad_per_sec ((packet_to_wheel_motor_rpm ( RAD_PER_REV * (11 / 13)) : Int) : ℚ)
        = RAD_PER_REV * (13 / 11) ∧
    RAD_PER_REV * (13 / 11) ≠ RAD_PER_REV * (11 / 13) := by
  have h60 : packet_to_wheel_motor_rpm ( RAD_PER_REV * (11 / 13)) = 60 := by
    show f64_as_i32 ( RAD_PER_REV * (11 / 13) / RAD_PER_REV * SEC_PER_MIN / WHEEL_GEAR_RATIO) = 60
    have harg : RAD_PER_REV * (11 / 13) / RAD_PER_REV * SEC_PER_MIN / WHEEL_GEAR_RATIO
        = (60 : ℚ) := by
      simp only [RAD_PER_REV, SEC_PER_MIN, WHEEL_GEAR_RATIO, PI]
      norm_num
    rw [harg]
    unfold f64_as_i32
    rw [if_pos (by norm_num : (0 : ℚ) ≤ 60)]
    norm_num [Int.floor_ofNat]
  constructor
  · rw [h60]
    unfold rpm_to_wheel_rad_per_sec
    simp only [RAD_PER_REV, SEC_PER_MIN, WHEEL_GEAR_RATIO, PI]
    norm_num
  · simp only [RAD_PER_REV, PI]
    norm_num

/-- Per-reading behaviour of `Option::map_or` with a sentinel default and
a finite-valued conversion, as used by both telemetry builders. -/
theorem map_or_cases (r : Option ℚ) (g h : ℚ → ℚ) :
    (r = none → map_or (F32V.fin 0) (fun x => F32V.fin (g x)) r = F32V.fin 0 ∧
      map_or F32V.negInf (fun x => F32V.fin (h x)) r = F32V.negInf) ∧
    (∀ x, r = some x → map_or (F32V.fin 0) (fun x => F32V.fin (g x)) r = F32V.fin (g x) ∧
      map_or F32V.negInf (fun x => F32V.fin (h x)) r = F32V.fin (h x)) ∧
    (map_or F32V.negInf (fun x => F32V.fin (h x)) r = F32V.negInf ↔ r = none) := by
  cases r <;> simp [map_or]

/-- Claim C10: for every control cycle and every pattern of failing
sensor reads, each channel of each telemetry packet is the per-packet
sentinel exactly when that channel's read failed — 0.0 in the position
packet, negative infinity in the velocity packet — and is the correctly
converted reading otherwise (wheel channels apply the gear-ratio factor,
intake channels do not).  For the velocity packet the sentinel moreover
identifies the failed channels exactly: no successful conversion can
produce negative infinity. -/
theorem c10_fault_isolation (fl fr bl br i1 i2 i3 : Option ℚ) (i : Fin 7) :
    (readingsOf fl fr bl br i1 i2 i3 i = none →
      channel (build_position_packet fl fr bl br i1 i2 i3) i = F32V.fin 0 ∧
      channel (build_velocity_packet fl fr bl br i1 i2 i3) i = F32V.negInf) ∧
    (∀ x, readingsOf fl fr bl br i1 i2 i3 i = some x →
      channel (build_position_packet fl fr bl br i1 i2 i3) i = F32V.fin (posConvert i x) ∧
      channel (build_velocity_packet fl fr bl br i1 i2 i3) i = F32V.fin (velConvert i x)) ∧
    (channel (build_velocity_packet fl fr bl br i1 i2 i3) i = F32V.negInf ↔
      readingsOf fl fr bl br i1 i2 i3 i = none) ∧
    (build_position_packet fl fr bl br i1 i2 i3).magic = ENCODER_POSITION_MAGIC ∧
    (build_velocity_packet fl fr bl br i1 i2 i3).magic = ENCODER_VELOCITY_MAGIC := by
  fin_cases i
  · obtain ⟨h1, h2, h3⟩ :=
      map_or_cases fl (fun x => x / WHEEL_GEAR_RATIO) rpm_to_wheel_rad_per_sec
    exact ⟨h1, h2, h3, rfl, rfl⟩
  · obtain ⟨h1, h2, h3⟩ :=
      map_or_cases bl (fun x => x / WHEEL_GEAR_RATIO) rpm_to_wheel_rad_per_sec
    exact ⟨h1, h2, h3, rfl, rfl⟩
  · obtain ⟨h1, h2, h3⟩ :=
      map_or_cases br (fun x => x / WHEEL_GEAR_RATIO) rpm_to_wheel_rad_per_sec
    exact ⟨h1, h2, h3, rfl, rfl⟩
  · obtain ⟨h1, h2, h3⟩ :=
      map_or_cases fr (fun x => x / WHEEL_GEAR_RATIO) rpm_to_wheel_rad_per_sec
    exact ⟨h1, h2, h3, rfl, rfl⟩
  · obtain ⟨h1, h2, h3⟩ := map_or_cases i1 (fun x => x) rpm_to_intake_rad_per_sec
    exact ⟨h1, h2, h3, rfl, rfl⟩
  · obtain ⟨h1, h2, h3⟩ := map_or_cases i2 (fun x => x) rpm_to_intake_rad_per_sec
    exact ⟨h1, h2, h3, rfl, rfl⟩
  · obtain ⟨h1, h2, h3⟩ := map_or_cases i3 (fun x => x) rpm_to_intake_rad_per_sec
    exact ⟨h1, h2, h3, rfl, rfl⟩
